import Mathlib

/-!
Verification of the dialing engine, address model and wheel geometry of
`stargate_app.py` (a ring-and-glyph dialing simulator).

The Python source is shallowly embedded: Python floats become exact
rationals (`ℚ`), Python ints become `ℤ`/`ℕ`, the pygame millisecond clock
becomes an explicit `now : ℤ` parameter, and each method of `StargateApp`
that mutates engine state becomes a function `GateState → GateState × List
AudioEvent`, where the returned list records the `audio.play` /
`audio.start_loop` / `audio.stop_loop` calls the method makes, in order.
Rendering, logging and the human-readable `status` string are
presentational and are not modelled.
-/

/-- Module-level constant `SYMBOL_COUNT = 39` of the source. -/
def SYMBOL_COUNT : ℤ := 39

/-- Module-level constant `MIN_ADDRESS_LENGTH = 7` of the source. -/
def MIN_ADDRESS_LENGTH : ℕ := 7

/-- Module-level constant `MAX_ADDRESS_LENGTH = 9` of the source. -/
def MAX_ADDRESS_LENGTH : ℕ := 9

/-- Module-level constant `SYMBOL_ARC_DEG = 360.0 / SYMBOL_COUNT`. -/
def SYMBOL_ARC_DEG : ℚ := 360 / 39

/-- Module-level constant `TOP_CHEVRON_ANGLE_DEG = -90.0`. -/
def TOP_CHEVRON_ANGLE_DEG : ℚ := -90

/-- Module-level constant `DIAL_SPIN_BASE_SPEED = 220.0`. -/
def DIAL_SPIN_BASE_SPEED : ℚ := 220

/-- Module-level constant `DIAL_SPIN_SPEED_STEP = 14.0`. -/
def DIAL_SPIN_SPEED_STEP : ℚ := 14

/-- Module-level constant `DIAL_MIN_TRAVEL_DEG = 360.0`. -/
def DIAL_MIN_TRAVEL_DEG : ℚ := 360

/-- Module-level constant `CHEVRON_ACTUATE_MS = 380`. -/
def CHEVRON_ACTUATE_MS : ℤ := 380

/-- Python's float modulo `x % y` (sign follows the divisor):
`x % y = x - y * floor (x / y)`. The source only uses it with `y = 360.0`. -/
def fmod (x y : ℚ) : ℚ := x - y * ⌊x / y⌋

/-- The four top-level values of `self.state`:
`"IDLE"`, `"DIALING"`, `"OPENING"`, `"CONNECTED"`. -/
inductive TopState
  | IDLE
  | DIALING
  | OPENING
  | CONNECTED
deriving DecidableEq

/-- The three values of `self.dial_phase`:
`"IDLE"`, `"SPINNING"`, `"CHEVRON_ACTUATE"`. -/
inductive DialPhase
  | IDLE
  | SPINNING
  | CHEVRON_ACTUATE
deriving DecidableEq

/-- The sound names the engine passes to `GateAudio`. -/
inductive SoundName
  | press
  | engage
  | ring
  | lock
  | error
  | close
  | kawoosh
  | connected
deriving DecidableEq

/-- One call into the `GateAudio` collaborator: `audio.play(name)`,
`audio.start_loop(name)` or `audio.stop_loop()`. -/
inductive AudioEvent
  | play (name : SoundName)
  | start_loop (name : SoundName)
  | stop_loop
deriving DecidableEq

/-- The keys of the `KNOWN_ADDRESSES` dict. -/
inductive Preset
  | Abydos
  | Chulak
  | Dakara
  | Earth
deriving DecidableEq

/-- The `KNOWN_ADDRESSES` dict of the source. -/
def known_address : Preset → List ℤ
  | Preset.Abydos => [26, 6, 14, 31, 11, 29, 1]
  | Preset.Chulak => [8, 1, 22, 14, 36, 19, 4]
  | Preset.Dakara => [17, 28, 4, 35, 9, 21, 2]
  | Preset.Earth => [1, 11, 2, 19, 21, 24, 35]

/-- The mutable engine fields of `StargateApp` (set up in `__init__`).
Presentational fields (`status`, `hovered_symbol`, star field, fonts,
layout rectangles) are omitted. -/
structure GateState where
  entered_symbols : List ℤ
  current_address : List ℤ
  locked_count : ℕ
  state : TopState
  ring_angle : ℚ
  ring_target_angle : ℚ
  ring_speed : ℚ
  dial_phase : DialPhase
  dial_step_index : ℕ
  chevron_phase_started_at : ℤ
  top_chevron_anim_until : ℤ
  open_finish_at : ℤ
  connected_since : ℤ
deriving DecidableEq

/-- The engine fields as initialised in `StargateApp.__init__`. -/
def initial_state : GateState :=
  { entered_symbols := []
    current_address := []
    locked_count := 0
    state := TopState.IDLE
    ring_angle := 0
    ring_target_angle := 0
    ring_speed := 0
    dial_phase := DialPhase.IDLE
    dial_step_index := 0
    chevron_phase_started_at := 0
    top_chevron_anim_until := 0
    open_finish_at := 0
    connected_since := 0 }

/-- `StargateApp._symbol_alignment_angle`:
`TOP_CHEVRON_ANGLE_DEG - symbol_index * SYMBOL_ARC_DEG`. -/
def symbol_alignment_angle (symbol_index : ℤ) : ℚ :=
  TOP_CHEVRON_ANGLE_DEG - (symbol_index : ℚ) * SYMBOL_ARC_DEG

/-- `StargateApp._begin_next_dial_step`. The source computes
`direction = 1.0 if dial_step_index % 2 == 0 else -1.0` and then branches
on `direction > 0`; here the branch is taken on the parity test directly. -/
def begin_next_dial_step (st : GateState) : GateState :=
  if h : st.dial_step_index < st.current_address.length then
    let symbol_index := st.current_address.get ⟨st.dial_step_index, h⟩
    let desired_angle := symbol_alignment_angle symbol_index
    if st.dial_step_index % 2 = 0 then
      let cw_delta := fmod (desired_angle - st.ring_angle) 360
      let travel := cw_delta + DIAL_MIN_TRAVEL_DEG
      { st with
          ring_target_angle := st.ring_angle + travel
          ring_speed := DIAL_SPIN_BASE_SPEED +
            min 110 ((st.dial_step_index : ℚ) * DIAL_SPIN_SPEED_STEP)
          dial_phase := DialPhase.SPINNING }
    else
      let ccw_delta := fmod (st.ring_angle - desired_angle) 360
      let travel := ccw_delta + DIAL_MIN_TRAVEL_DEG
      { st with
          ring_target_angle := st.ring_angle - travel
          ring_speed := DIAL_SPIN_BASE_SPEED +
            min 110 ((st.dial_step_index : ℚ) * DIAL_SPIN_SPEED_STEP)
          dial_phase := DialPhase.SPINNING }
  else st

/-- `StargateApp._finish_dialing`. -/
def finish_dialing (st : GateState) (now : ℤ) : GateState × List AudioEvent :=
  ({ st with
       state := TopState.OPENING
       dial_phase := DialPhase.IDLE
       open_finish_at := now + 1100 },
   [AudioEvent.stop_loop, AudioEvent.play SoundName.kawoosh])

/-- `StargateApp._add_symbol`. -/
def add_symbol (st : GateState) (idx : ℤ) : GateState × List AudioEvent :=
  if st.state ≠ TopState.IDLE then (st, [AudioEvent.play SoundName.error])
  else if MAX_ADDRESS_LENGTH ≤ st.entered_symbols.length then
    (st, [AudioEvent.play SoundName.error])
  else if idx < 0 ∨ SYMBOL_COUNT ≤ idx then (st, [])
  else
    ({ st with entered_symbols := st.entered_symbols ++ [idx] },
     [AudioEvent.play SoundName.press])

/-- `StargateApp._remove_symbol`. -/
def remove_symbol (st : GateState) : GateState × List AudioEvent :=
  if st.state ≠ TopState.IDLE then (st, [])
  else if st.entered_symbols ≠ [] then
    ({ st with entered_symbols := st.entered_symbols.dropLast },
     [AudioEvent.play SoundName.press])
  else (st, [])

/-- `StargateApp._clear_symbols`. -/
def clear_symbols (st : GateState) : GateState × List AudioEvent :=
  if st.state ≠ TopState.IDLE then (st, [])
  else ({ st with entered_symbols := [] }, [AudioEvent.play SoundName.press])

/-- `StargateApp._load_preset`. -/
def load_preset (st : GateState) (p : Preset) : GateState × List AudioEvent :=
  if st.state ≠ TopState.IDLE then (st, [AudioEvent.play SoundName.error])
  else
    ({ st with entered_symbols := known_address p },
     [AudioEvent.play SoundName.press])

/-- `StargateApp._start_dial`. -/
def start_dial (st : GateState) : GateState × List AudioEvent :=
  if st.state ≠ TopState.IDLE then (st, [AudioEvent.play SoundName.error])
  else if st.entered_symbols.length < MIN_ADDRESS_LENGTH then
    (st, [AudioEvent.play SoundName.error])
  else
    (begin_next_dial_step
       { st with
           current_address := st.entered_symbols
           locked_count := 0
           state := TopState.DIALING
           dial_step_index := 0
           dial_phase := DialPhase.IDLE
           chevron_phase_started_at := 0
           top_chevron_anim_until := 0 },
     [AudioEvent.play SoundName.engage, AudioEvent.start_loop SoundName.ring])

/-- `StargateApp._close_gate`. From `IDLE` it only rewrites the status
line; otherwise it resets the whole episode. -/
def close_gate (st : GateState) : GateState × List AudioEvent :=
  if st.state = TopState.IDLE then (st, [])
  else
    ({ st with
         state := TopState.IDLE
         locked_count := 0
         current_address := []
         entered_symbols := []
         ring_angle := 0
         ring_target_angle := 0
         ring_speed := 0
         dial_phase := DialPhase.IDLE
         dial_step_index := 0
         top_chevron_anim_until := 0 },
     [AudioEvent.stop_loop, AudioEvent.play SoundName.close])

/-- `StargateApp._update(dt)`; `now = pygame.time.get_ticks()` is passed
explicitly. The `CONNECTED` arm of the source only refreshes the status
string, so it is a no-op here. -/
def update_tick (st : GateState) (dt : ℚ) (now : ℤ) : GateState × List AudioEvent :=
  if st.state = TopState.DIALING then
    if st.dial_phase = DialPhase.SPINNING then
      let delta := st.ring_target_angle - st.ring_angle
      let max_step := st.ring_speed * dt
      if |delta| ≤ max_step then
        ({ st with
             ring_angle := st.ring_target_angle
             dial_phase := DialPhase.CHEVRON_ACTUATE
             chevron_phase_started_at := now
             top_chevron_anim_until := now + CHEVRON_ACTUATE_MS }, [])
      else
        ({ st with
             ring_angle := st.ring_angle +
               (if delta > 0 then max_step else -max_step) }, [])
    else if st.dial_phase = DialPhase.CHEVRON_ACTUATE then
      if now ≥ st.top_chevron_anim_until then
        let st1 := { st with locked_count := st.locked_count + 1 }
        if st1.current_address.length ≤ st1.locked_count then
          let fin := finish_dialing st1 now
          (fin.1, AudioEvent.play SoundName.lock :: fin.2)
        else
          (begin_next_dial_step { st1 with dial_step_index := st1.dial_step_index + 1 },
           [AudioEvent.play SoundName.lock])
      else (st, [])
    else (st, [])
  else if st.state = TopState.OPENING then
    if now ≥ st.open_finish_at then
      ({ st with state := TopState.CONNECTED, connected_since := now },
       [AudioEvent.play SoundName.connected])
    else (st, [])
  else (st, [])

/-- States reachable from `initial_state` through the engine commands
(each click/key handler of the source dispatches into exactly these). -/
inductive Reachable : GateState → Prop
  | init : Reachable initial_state
  | add (st : GateState) (idx : ℤ) :
      Reachable st → Reachable (add_symbol st idx).1
  | remove (st : GateState) :
      Reachable st → Reachable (remove_symbol st).1
  | clear (st : GateState) :
      Reachable st → Reachable (clear_symbols st).1
  | preset (st : GateState) (p : Preset) :
      Reachable st → Reachable (load_preset st p).1
  | start (st : GateState) :
      Reachable st → Reachable (start_dial st).1
  | close (st : GateState) :
      Reachable st → Reachable (close_gate st).1
  | step (st : GateState) (dt : ℚ) (now : ℤ) :
      Reachable st → Reachable (update_tick st dt now).1

/-- A `DHDSector` of the source (radii are Python ints). -/
structure DHDSector where
  index : ℕ
  start_angle : ℚ
  end_angle : ℚ
  inner_radius : ℤ
  outer_radius : ℤ
deriving DecidableEq

/-- `DHDWheel.set_geometry`: `self.outer_radius = max(170, outer_radius)`. -/
def effective_outer_radius (r : ℤ) : ℤ := max 170 r

/-- `DHDWheel.set_geometry`: `int(self.outer_radius * 0.69)`. -/
def outer_ring_inner (r : ℤ) : ℤ := 69 * effective_outer_radius r / 100

/-- `DHDWheel.set_geometry`: `int(self.outer_radius * 0.64)`. -/
def inner_ring_outer (r : ℤ) : ℤ := 64 * effective_outer_radius r / 100

/-- `DHDWheel.set_geometry`: `int(self.outer_radius * 0.43)`. -/
def inner_ring_inner (r : ℤ) : ℤ := 43 * effective_outer_radius r / 100

/-- `DHDWheel.set_geometry`: `int(self.outer_radius * 0.30)`. -/
def center_button_radius (r : ℤ) : ℤ := 30 * effective_outer_radius r / 100

/-- One outer-ring sector of `DHDWheel._build_sectors` (27 sectors,
step `360/27`, indices `0..26`). -/
def mk_outer_sector (r : ℤ) (i : ℕ) : DHDSector :=
  let step : ℚ := 360 / 27
  let start : ℚ := fmod ((i : ℚ) * step) 360
  { index := i
    start_angle := start
    end_angle := fmod (start + step) 360
    inner_radius := outer_ring_inner r
    outer_radius := effective_outer_radius r }

/-- One inner-ring sector of `DHDWheel._build_sectors` (12 sectors,
step `360/12`, offset by half a step, indices `27..38`). -/
def mk_inner_sector (r : ℤ) (i : ℕ) : DHDSector :=
  let step : ℚ := 360 / 12
  let off : ℚ := step * 0.5
  let start : ℚ := fmod (off + (i : ℚ) * step) 360
  { index := 27 + i
    start_angle := start
    end_angle := fmod (start + step) 360
    inner_radius := inner_ring_inner r
    outer_radius := inner_ring_outer r }

/-- `DHDWheel._build_sectors` for a wheel of outer radius `r`. -/
def build_sectors (r : ℤ) : List DHDSector :=
  (List.range 27).map (mk_outer_sector r) ++ (List.range 12).map (mk_inner_sector r)

/-- Module-level `_angle_in_span(angle, start, end)`. -/
def angle_in_span (angle s e : ℚ) : Bool :=
  if s ≤ e then decide (s ≤ angle ∧ angle < e)
  else decide (s ≤ angle ∨ angle < e)

/-- The per-sector test of `DHDWheel.hit_test`: the radius band check
followed by the angular span check. -/
def sector_matches (sec : DHDSector) (angle dist : ℚ) : Bool :=
  decide ((sec.inner_radius : ℚ) ≤ dist ∧ dist ≤ (sec.outer_radius : ℚ)) &&
    angle_in_span angle sec.start_angle sec.end_angle

/-- The result values of `DHDWheel.hit_test`. -/
inductive HitKind
  | center
  | symbol (index : ℕ)
  | none
deriving DecidableEq

/-- `DHDWheel.hit_test` in polar form: the source first converts the
pointer offset to `(angle, dist)` with `math.hypot` and
`_cw_angle_from_vector` (so `0 ≤ angle < 360`), then classifies. -/
def hit_test (r : ℤ) (angle dist : ℚ) : HitKind :=
  if dist ≤ (center_button_radius r : ℚ) then HitKind.center
  else
    match (build_sectors r).find? (fun sec => sector_matches sec angle dist) with
    | some sec => HitKind.symbol sec.index
    | Option.none => HitKind.none

/-- Concrete run: `initial_state` after loading the `Abydos` preset. -/
def preset_loaded_state : GateState := (load_preset initial_state Preset.Abydos).1

/-- Concrete run: `preset_loaded_state` after `start_dial` (step 0 begun). -/
def started_state : GateState := (start_dial preset_loaded_state).1

/-- Concrete state used to exercise `begin_next_dial_step` on an even step. -/
def even_step_state : GateState :=
  { initial_state with current_address := [0], state := TopState.DIALING }

/-- Concrete state used to exercise `begin_next_dial_step` on an odd step. -/
def odd_step_state : GateState :=
  { initial_state with
      current_address := [0, 5]
      dial_step_index := 1
      state := TopState.DIALING }

/-- Concrete state holding a full nine-symbol address. -/
def full_address_state : GateState :=
  { initial_state with entered_symbols := [0, 1, 2, 3, 4, 5, 6, 7, 8] }

theorem fmod_nonneg (x : ℚ) : 0 ≤ fmod x 360 := by
  have h1 : ((⌊x / 360⌋ : ℚ)) ≤ x / 360 := Int.floor_le _
  have h2 : (360 : ℚ) * (x / 360) = x := by ring
  unfold fmod
  nlinarith

theorem fmod_lt (x : ℚ) : fmod x 360 < 360 := by
  have h1 : x / 360 < ⌊x / 360⌋ + 1 := Int.lt_floor_add_one _
  have h2 : (360 : ℚ) * (x / 360) = x := by ring
  unfold fmod
  nlinarith

theorem fmod_eq_self {x : ℚ} (h0 : 0 ≤ x) (h1 : x < 360) : fmod x 360 = x := by
  have hf : ⌊x / 360⌋ = 0 := by
    rw [Int.floor_eq_zero_iff]
    constructor
    · positivity
    · rw [div_lt_one (by norm_num)]; exact h1
  unfold fmod
  rw [hf]
  push_cast
  ring

theorem fmod_360 : fmod 360 360 = 0 := by norm_num [fmod]

theorem begin_next_dial_step_fields (st : GateState) :
    (begin_next_dial_step st).state = st.state ∧
    (begin_next_dial_step st).entered_symbols = st.entered_symbols ∧
    (begin_next_dial_step st).current_address = st.current_address ∧
    (begin_next_dial_step st).locked_count = st.locked_count ∧
    (begin_next_dial_step st).dial_step_index = st.dial_step_index ∧
    (begin_next_dial_step st).ring_angle = st.ring_angle := by
  unfold begin_next_dial_step
  split
  · split <;> exact ⟨rfl, rfl, rfl, rfl, rfl, rfl⟩
  · exact ⟨rfl, rfl, rfl, rfl, rfl, rfl⟩

theorem update_tick_entered (st : GateState) (dt : ℚ) (now : ℤ) :
    (update_tick st dt now).1.entered_symbols = st.entered_symbols := by
  simp only [update_tick, finish_dialing]
  split_ifs <;> simp [(begin_next_dial_step_fields _).2.1]

theorem reachable_entered_length {st : GateState} (h : Reachable st) :
    st.entered_symbols.length ≤ MAX_ADDRESS_LENGTH := by
  induction h with
  | init => simp [initial_state, MAX_ADDRESS_LENGTH]
  | add st idx _ ih =>
      unfold add_symbol
      split_ifs with h1 h2 h3
      · exact ih
      · exact ih
      · exact ih
      · simp only [List.length_append, List.length_cons, List.length_nil]
        omega
  | remove st _ ih =>
      unfold remove_symbol
      split_ifs <;> simp_all [List.length_dropLast]
      omega
  | clear st _ ih =>
      unfold clear_symbols
      split_ifs <;> simp_all [MAX_ADDRESS_LENGTH]
  | preset st p _ ih =>
      unfold load_preset
      split_ifs <;> [exact ih; cases p <;> simp [known_address, MAX_ADDRESS_LENGTH]]
  | start st _ ih =>
      unfold start_dial
      split_ifs <;> simp_all [(begin_next_dial_step_fields _).2.1]
  | close st _ ih =>
      unfold close_gate
      split_ifs <;> simp_all [MAX_ADDRESS_LENGTH]
  | step st dt now _ ih =>
      rw [update_tick_entered]
      exact ih

theorem update_tick_not_idle (st : GateState) (dt : ℚ) (now : ℤ)
    (h : (update_tick st dt now).1.state = TopState.IDLE) :
    update_tick st dt now = (st, []) ∧ st.state = TopState.IDLE := by
  by_cases h1 : st.state = TopState.DIALING
  · exfalso
    revert h
    simp only [update_tick, finish_dialing, if_pos h1]
    split_ifs <;>
      simp [h1, (begin_next_dial_step_fields _).1]
  · by_cases h2 : st.state = TopState.OPENING
    · exfalso
      revert h
      simp only [update_tick, if_neg h1, if_pos h2]
      split_ifs <;> simp [h2]
    · constructor
      · simp [update_tick, if_neg h1, if_neg h2]
      · rw [← h]
        simp [update_tick, if_neg h1, if_neg h2]

/-- C7 (amended): in every reachable engine state, if the top-level state
is `IDLE` then `locked_count` is `0`. (The converse direction of the
original claim fails; see the counterexample.) -/
theorem locked_zero_when_idle {st : GateState} (h : Reachable st)
    (hidle : st.state = TopState.IDLE) : st.locked_count = 0 := by
  induction h with
  | init => rfl
  | add st idx _ ih =>
      revert hidle
      unfold add_symbol
      split_ifs <;> exact ih
  | remove st _ ih =>
      revert hidle
      unfold remove_symbol
      split_ifs <;> exact ih
  | clear st _ ih =>
      revert hidle
      unfold clear_symbols
      split_ifs <;> exact ih
  | preset st p _ ih =>
      revert hidle
      unfold load_preset
      split_ifs <;> exact ih
  | start st _ ih =>
      revert hidle
      unfold start_dial
      split_ifs with h1 h2
      · exact ih
      · exact ih
      · intro hidle
        rw [(begin_next_dial_step_fields _).1] at hidle
        cases hidle
  | close st _ ih =>
      revert hidle
      unfold close_gate
      split_ifs with h1
      · exact ih
      · intro _
        rfl
  | step st dt now _ ih =>
      obtain ⟨heq, hst⟩ := update_tick_not_idle st dt now hidle
      rw [heq]
      exact ih hst

/-- C7 counterexample: the claimed equivalence "locked_count = 0 iff the
top-level state is Idle" is false: right after a successful
`start_dial` (here: Abydos preset loaded, then started) the engine is
reachable, `locked_count` is still `0`, and the state is `DIALING`. -/
theorem locked_zero_iff_idle_cex :
    ¬ ∀ st : GateState, Reachable st →
        (st.locked_count = 0 ↔ st.state = TopState.IDLE) := by
  intro hall
  have hr : Reachable started_state :=
    Reachable.start _ (Reachable.preset _ _ Reachable.init)
  have h0 : started_state.locked_count = 0 := rfl
  have hD : started_state.state = TopState.DIALING := rfl
  have := (hall started_state hr).mp h0
  rw [hD] at this
  cases this

/-- C7 witness: the amended theorem applied at the initial state. -/
theorem locked_zero_when_idle_check :
    initial_state.state = TopState.IDLE ∧ initial_state.locked_count = 0 :=
  ⟨rfl, locked_zero_when_idle Reachable.init rfl⟩

/-- C2: from any reachable state, `start_dial` succeeds (emits the engage
cue and starts the ring loop, snapshots `current_address :=
entered_symbols`, resets `locked_count` to `0` and enters `DIALING`) if
and only if the state is `IDLE` and `7 ≤ len(entered) ≤ 9`; on any
rejection `entered_symbols`, `current_address` and the top-level state are
unchanged and exactly the error cue fires. -/
theorem start_gating (st : GateState) (h : Reachable st) :
    ((start_dial st).2 =
        [AudioEvent.play SoundName.engage, AudioEvent.start_loop SoundName.ring] ↔
      st.state = TopState.IDLE ∧ MIN_ADDRESS_LENGTH ≤ st.entered_symbols.length ∧
        st.entered_symbols.length ≤ MAX_ADDRESS_LENGTH) ∧
    ((start_dial st).2 =
        [AudioEvent.play SoundName.engage, AudioEvent.start_loop SoundName.ring] →
      (start_dial st).1.current_address = st.entered_symbols ∧
        (start_dial st).1.locked_count = 0 ∧
        (start_dial st).1.state = TopState.DIALING) ∧
    (¬ (st.state = TopState.IDLE ∧ MIN_ADDRESS_LENGTH ≤ st.entered_symbols.length ∧
          st.entered_symbols.length ≤ MAX_ADDRESS_LENGTH) →
      (start_dial st).1.entered_symbols = st.entered_symbols ∧
        (start_dial st).1.current_address = st.current_address ∧
        (start_dial st).1.state = st.state ∧
        (start_dial st).2 = [AudioEvent.play SoundName.error]) := by
  have hlen : st.entered_symbols.length ≤ MAX_ADDRESS_LENGTH :=
    reachable_entered_length h
  unfold start_dial
  split_ifs with h1 h2
  · refine ⟨?_, ?_, fun _ => ⟨rfl, rfl, rfl, rfl⟩⟩
    · constructor
      · intro hev
        cases hev
      · rintro ⟨hidle, -⟩
        exact absurd hidle h1
    · intro hev
      cases hev
  · refine ⟨?_, ?_, fun _ => ⟨rfl, rfl, rfl, rfl⟩⟩
    · constructor
      · intro hev
        cases hev
      · rintro ⟨-, hmin, -⟩
        omega
    · intro hev
      cases hev
  · push_neg at h1
    refine ⟨?_, ?_, ?_⟩
    · simp only [true_iff, iff_true]
      exact ⟨h1, by omega, hlen⟩
    · intro _
      exact ⟨(begin_next_dial_step_fields _).2.2.1,
             (begin_next_dial_step_fields _).2.2.2.1,
             (begin_next_dial_step_fields _).1⟩
    · intro hrej
      exact absurd ⟨h1, by omega, hlen⟩ hrej

/-- C2 witness: with the Abydos preset loaded (a reachable state with a
seven-symbol address) `start_dial` succeeds and snapshots the address. -/
theorem start_gating_check :
    (start_dial preset_loaded_state).2 =
        [AudioEvent.play SoundName.engage, AudioEvent.start_loop SoundName.ring] ∧
      (start_dial preset_loaded_state).1.current_address =
        preset_loaded_state.entered_symbols ∧
      (start_dial preset_loaded_state).1.locked_count = 0 ∧
      (start_dial preset_loaded_state).1.state = TopState.DIALING := by
  have h := start_gating preset_loaded_state (Reachable.preset _ _ Reachable.init)
  have hev : (start_dial preset_loaded_state).2 =
      [AudioEvent.play SoundName.engage, AudioEvent.start_loop SoundName.ring] :=
    h.1.mpr ⟨rfl, by decide, by decide⟩
  exact ⟨hev, h.2.1 hev⟩

/-- C3: `close_gate` from any non-`IDLE` state immediately yields empty
`entered_symbols` and `current_address`, `locked_count = 0` and state
`IDLE`, and afterwards `update_tick` is a no-op that emits no events (in
particular no lock cue), for every `dt` and every clock value `now` —
including values past the stale actuation deadline. -/
theorem close_resets_fully (st : GateState) (h : st.state ≠ TopState.IDLE) :
    (close_gate st).1.entered_symbols = [] ∧
    (close_gate st).1.current_address = [] ∧
    (close_gate st).1.locked_count = 0 ∧
    (close_gate st).1.state = TopState.IDLE ∧
    ∀ (dt : ℚ) (now : ℤ),
      update_tick (close_gate st).1 dt now = ((close_gate st).1, []) := by
  unfold close_gate
  rw [if_neg h]
  refine ⟨rfl, rfl, rfl, rfl, ?_⟩
  intro dt now
  simp [update_tick]

/-- C3 witness: closing mid-dial (the started Abydos run, whose actuation
deadline field is `0`, hence "in the past" for `now = 1000`). -/
theorem close_resets_fully_check :
    (close_gate started_state).1.entered_symbols = [] ∧
      (close_gate started_state).1.current_address = [] ∧
      (close_gate started_state).1.locked_count = 0 ∧
      (close_gate started_state).1.state = TopState.IDLE ∧
      update_tick (close_gate started_state).1 1 1000 =
        ((close_gate started_state).1, []) := by
  have h := close_resets_fully started_state (by intro hc; cases hc)
  exact ⟨h.1, h.2.1, h.2.2.1, h.2.2.2.1, h.2.2.2.2 1 1000⟩

/-- C4: whenever a dial step is begun (`dial_step_index` still addresses a
symbol of `current_address`), the distance between the new
`ring_target_angle` and the ring angle at step start is at least 360
degrees — even when the desired stop angle equals the current angle. -/
theorem minimum_travel (st : GateState)
    (h : st.dial_step_index < st.current_address.length) :
    360 ≤ |(begin_next_dial_step st).ring_target_angle - st.ring_angle| := by
  unfold begin_next_dial_step
  rw [dif_pos h]
  by_cases hp : st.dial_step_index % 2 = 0
  · rw [if_pos hp]
    have h0 := fmod_nonneg
      (symbol_alignment_angle (st.current_address.get ⟨st.dial_step_index, h⟩) -
        st.ring_angle)
    show 360 ≤ |st.ring_angle +
        (fmod (symbol_alignment_angle
            (st.current_address.get ⟨st.dial_step_index, h⟩) - st.ring_angle) 360 +
          DIAL_MIN_TRAVEL_DEG) - st.ring_angle|
    rw [abs_of_nonneg (by unfold DIAL_MIN_TRAVEL_DEG; linarith)]
    unfold DIAL_MIN_TRAVEL_DEG
    linarith
  · rw [if_neg hp]
    have h0 := fmod_nonneg
      (st.ring_angle -
        symbol_alignment_angle (st.current_address.get ⟨st.dial_step_index, h⟩))
    show 360 ≤ |st.ring_angle -
        (fmod (st.ring_angle - symbol_alignment_angle
            (st.current_address.get ⟨st.dial_step_index, h⟩)) 360 +
          DIAL_MIN_TRAVEL_DEG) - st.ring_angle|
    rw [abs_of_nonpos (by unfold DIAL_MIN_TRAVEL_DEG; linarith)]
    unfold DIAL_MIN_TRAVEL_DEG
    linarith

/-- C4 witness: beginning step 0 of the one-symbol address `[0]` travels at
least a full revolution. -/
theorem minimum_travel_check :
    even_step_state.dial_step_index < even_step_state.current_address.length ∧
      360 ≤ |(begin_next_dial_step even_step_state).ring_target_angle -
        even_step_state.ring_angle| :=
  ⟨by decide, minimum_travel even_step_state (by decide)⟩

/-- C5: when a dial step is begun, an even `dial_step_index` spins
clockwise (`ring_target_angle` strictly above the ring angle at step
start) and an odd `dial_step_index` spins counter-clockwise (strictly
below), so consecutive steps travel in opposite directions. -/
theorem direction_alternation (st : GateState)
    (h : st.dial_step_index < st.current_address.length) :
    (st.dial_step_index % 2 = 0 →
      st.ring_angle < (begin_next_dial_step st).ring_target_angle) ∧
    (st.dial_step_index % 2 = 1 →
      (begin_next_dial_step st).ring_target_angle < st.ring_angle) := by
  unfold begin_next_dial_step
  rw [dif_pos h]
  constructor
  · intro hp
    rw [if_pos hp]
    have h0 := fmod_nonneg
      (symbol_alignment_angle (st.current_address.get ⟨st.dial_step_index, h⟩) -
        st.ring_angle)
    show st.ring_angle < st.ring_angle +
        (fmod (symbol_alignment_angle
            (st.current_address.get ⟨st.dial_step_index, h⟩) - st.ring_angle) 360 +
          DIAL_MIN_TRAVEL_DEG)
    unfold DIAL_MIN_TRAVEL_DEG
    linarith
  · intro hp
    rw [if_neg (by omega : ¬ st.dial_step_index % 2 = 0)]
    have h0 := fmod_nonneg
      (st.ring_angle -
        symbol_alignment_angle (st.current_address.get ⟨st.dial_step_index, h⟩))
    show st.ring_angle -
        (fmod (st.ring_angle - symbol_alignment_angle
            (st.current_address.get ⟨st.dial_step_index, h⟩)) 360 +
          DIAL_MIN_TRAVEL_DEG) < st.ring_angle
    unfold DIAL_MIN_TRAVEL_DEG
    linarith

/-- C5 witness: step 0 of `[0]` spins clockwise, step 1 of `[0, 5]` spins
counter-clockwise. -/
theorem direction_alternation_check :
    even_step_state.ring_angle <
        (begin_next_dial_step even_step_state).ring_target_angle ∧
      (begin_next_dial_step odd_step_state).ring_target_angle <
        odd_step_state.ring_angle :=
  ⟨(direction_alternation even_step_state (by decide)).1 rfl,
   (direction_alternation odd_step_state (by decide)).2 rfl⟩

theorem reachable_foldl_add (idxs : List ℤ) (st : GateState) (h : Reachable st) :
    Reachable (idxs.foldl (fun s i => (add_symbol s i).1) st) := by
  induction idxs generalizing st with
  | nil => exact h
  | cons i rest ih => exact ih _ (Reachable.add st i h)

/-- C6: over every sequence of `add_symbol` calls from the initial state
the entered address never exceeds 9 symbols, and an `add_symbol` issued
when the address already holds 9 symbols leaves `entered_symbols`
unchanged. -/
theorem address_bounds :
    (∀ idxs : List ℤ,
      ((idxs.foldl (fun s i => (add_symbol s i).1)
          initial_state).entered_symbols.length ≤ MAX_ADDRESS_LENGTH)) ∧
    (∀ (st : GateState) (idx : ℤ),
      st.entered_symbols.length = MAX_ADDRESS_LENGTH →
        (add_symbol st idx).1.entered_symbols = st.entered_symbols) := by
  constructor
  · intro idxs
    exact reachable_entered_length (reachable_foldl_add idxs _ Reachable.init)
  · intro st idx hfull
    unfold add_symbol
    split_ifs with h1 h2 h3
    · rfl
    · rfl
    · rfl
    · omega

/-- C6 witness: twelve appends never push the address past nine symbols,
and an append onto a concrete nine-symbol address is dropped. -/
theorem address_bounds_check :
    (([0, 1, 2, 3, 4, 5, 6, 7, 8, 9, 10, 11].foldl
        (fun s i => (add_symbol s i).1)
        initial_state).entered_symbols.length ≤ MAX_ADDRESS_LENGTH) ∧
      full_address_state.entered_symbols.length = MAX_ADDRESS_LENGTH ∧
      (add_symbol full_address_state 5).1.entered_symbols =
        full_address_state.entered_symbols :=
  ⟨address_bounds.1 _, by decide, address_bounds.2 full_address_state 5 (by decide)⟩

/-- C10: a span whose two endpoints coincide contains no angle at all:
`_angle_in_span(a, s, s)` is `False` for every `a` and `s`. -/
theorem zero_width_span_empty (angle s : ℚ) : angle_in_span angle s s = false := by
  unfold angle_in_span
  rw [if_pos le_rfl]
  simp only [decide_eq_false_iff_not, not_and, not_lt]
  intro hle
  exact hle

/-- C8 (amended): an `add_symbol` rejected because the engine is not
`IDLE` or because the address is full emits the error cue, and a
`load_preset` rejected because the engine is not `IDLE` emits the error
cue; but an `add_symbol` whose symbol lies outside `[0, 39)`, and
`remove_symbol` / `clear_symbols` issued while not `IDLE`, are rejected
silently: they leave the state unchanged and emit no cue at all. -/
theorem rejection_cues :
    (∀ (st : GateState) (idx : ℤ), st.state ≠ TopState.IDLE →
      (add_symbol st idx).1 = st ∧
        (add_symbol st idx).2 = [AudioEvent.play SoundName.error]) ∧
    (∀ (st : GateState) (idx : ℤ), st.state = TopState.IDLE →
      MAX_ADDRESS_LENGTH ≤ st.entered_symbols.length →
        (add_symbol st idx).1 = st ∧
          (add_symbol st idx).2 = [AudioEvent.play SoundName.error]) ∧
    (∀ (st : GateState) (idx : ℤ), st.state = TopState.IDLE →
      st.entered_symbols.length < MAX_ADDRESS_LENGTH →
        (idx < 0 ∨ SYMBOL_COUNT ≤ idx) →
          (add_symbol st idx).1 = st ∧ (add_symbol st idx).2 = []) ∧
    (∀ st : GateState, st.state ≠ TopState.IDLE →
      (remove_symbol st).1 = st ∧ (remove_symbol st).2 = []) ∧
    (∀ st : GateState, st.state ≠ TopState.IDLE →
      (clear_symbols st).1 = st ∧ (clear_symbols st).2 = []) ∧
    (∀ (st : GateState) (p : Preset), st.state ≠ TopState.IDLE →
      (load_preset st p).1 = st ∧
        (load_preset st p).2 = [AudioEvent.play SoundName.error]) := by
  refine ⟨?_, ?_, ?_, ?_, ?_, ?_⟩
  · intro st idx h
    unfold add_symbol
    rw [if_pos h]
    exact ⟨rfl, rfl⟩
  · intro st idx h hfull
    unfold add_symbol
    rw [if_neg (by simp [h]), if_pos hfull]
    exact ⟨rfl, rfl⟩
  · intro st idx h hlen hout
    unfold add_symbol
    rw [if_neg (by simp [h]), if_neg (by omega), if_pos hout]
    exact ⟨rfl, rfl⟩
  · intro st h
    unfold remove_symbol
    rw [if_pos h]
    exact ⟨rfl, rfl⟩
  · intro st h
    unfold clear_symbols
    rw [if_pos h]
    exact ⟨rfl, rfl⟩
  · intro st p h
    unfold load_preset
    rw [if_pos h]
    exact ⟨rfl, rfl⟩

/-- C8 counterexample: the original claim says every rejected mutation
emits an error cue, but `clear_symbols` called mid-dial (a rejected
mutation: the state is not `IDLE` and nothing changes) emits no cue, and
an `add_symbol` with the out-of-range symbol 39 in a legal `IDLE` state is
likewise dropped with no cue. -/
theorem rejection_cue_cex :
    started_state.state ≠ TopState.IDLE ∧
      (clear_symbols started_state).1 = started_state ∧
      (clear_symbols started_state).2 = [] ∧
      (add_symbol initial_state 39).1 = initial_state ∧
      (add_symbol initial_state 39).2 = [] := by
  exact ⟨fun hc => TopState.noConfusion hc, rfl, rfl, rfl, rfl⟩

/-- C8 witness: the amended clauses at concrete states: mid-dial append
(error cue), full-address append (error cue), out-of-range append
(silent), mid-dial remove and clear (silent), mid-dial preset (error
cue). -/
theorem rejection_cues_check :
    ((add_symbol started_state 3).2 = [AudioEvent.play SoundName.error]) ∧
      ((add_symbol full_address_state 3).2 = [AudioEvent.play SoundName.error]) ∧
      ((add_symbol initial_state 50).2 = []) ∧
      ((remove_symbol started_state).2 = []) ∧
      ((clear_symbols started_state).2 = []) ∧
      ((load_preset started_state Preset.Earth).2 =
        [AudioEvent.play SoundName.error]) := by
  have hne : started_state.state ≠ TopState.IDLE := by intro hc; cases hc
  refine ⟨(rejection_cues.1 started_state 3 hne).2,
    (rejection_cues.2.1 full_address_state 3 rfl (by decide)).2,
    (rejection_cues.2.2.1 initial_state 50 rfl (by decide) (by decide)).2,
    (rejection_cues.2.2.2.1 started_state hne).2,
    (rejection_cues.2.2.2.2.1 started_state hne).2,
    (rejection_cues.2.2.2.2.2 started_state Preset.Earth hne).2⟩

/-- C1 (amended): when `begin_next_dial_step` begins step `i` it computes
the desired stop angle for the symbol `current_address[i]` as
`TOP_CHEVRON_ANGLE_DEG - current_address[i] * SYMBOL_ARC_DEG` — the
multiplier is the symbol value at position `i`, not the step index `i` —
and the travel extension then moves the target by an exact whole number of
360-degree revolutions away from that desired stop angle. -/
theorem step_angle_formula (st : GateState)
    (h : st.dial_step_index < st.current_address.length) :
    symbol_alignment_angle (st.current_address.get ⟨st.dial_step_index, h⟩) =
      TOP_CHEVRON_ANGLE_DEG -
        ((st.current_address.get ⟨st.dial_step_index, h⟩ : ℤ) : ℚ) *
          SYMBOL_ARC_DEG ∧
    ∃ k : ℤ, (begin_next_dial_step st).ring_target_angle =
      symbol_alignment_angle (st.current_address.get ⟨st.dial_step_index, h⟩) +
        360 * k := by
  refine ⟨rfl, ?_⟩
  unfold begin_next_dial_step
  rw [dif_pos h]
  by_cases hp : st.dial_step_index % 2 = 0
  · rw [if_pos hp]
    refine ⟨1 - ⌊(symbol_alignment_angle
        (st.current_address.get ⟨st.dial_step_index, h⟩) - st.ring_angle) / 360⌋, ?_⟩
    show st.ring_angle +
        (fmod (symbol_alignment_angle
            (st.current_address.get ⟨st.dial_step_index, h⟩) - st.ring_angle) 360 +
          DIAL_MIN_TRAVEL_DEG) = _
    unfold fmod DIAL_MIN_TRAVEL_DEG
    push_cast
    ring
  · rw [if_neg hp]
    refine ⟨⌊(st.ring_angle - symbol_alignment_angle
        (st.current_address.get ⟨st.dial_step_index, h⟩)) / 360⌋ - 1, ?_⟩
    show st.ring_angle -
        (fmod (st.ring_angle - symbol_alignment_angle
            (st.current_address.get ⟨st.dial_step_index, h⟩)) 360 +
          DIAL_MIN_TRAVEL_DEG) = _
    unfold fmod DIAL_MIN_TRAVEL_DEG
    push_cast
    ring

/-- C1 counterexample: in the started Abydos run, step 0 dials symbol 26;
the code's desired stop angle `symbol_alignment_angle 26 = -330` differs
from the claimed `TOP_CHEVRON_ANGLE_DEG - 0 * SYMBOL_ARC_DEG = -90`, and
the target actually set for step 0 is `390`, which is not `-90` plus any
whole number of revolutions. -/
theorem step_angle_formula_cex :
    started_state.dial_step_index = 0 ∧
      started_state.current_address = [26, 6, 14, 31, 11, 29, 1] ∧
      symbol_alignment_angle 26 ≠
        TOP_CHEVRON_ANGLE_DEG - ((0 : ℕ) : ℚ) * SYMBOL_ARC_DEG ∧
      started_state.ring_target_angle = 390 ∧
      ¬ ∃ k : ℤ, (390 : ℚ) =
        (TOP_CHEVRON_ANGLE_DEG - ((0 : ℕ) : ℚ) * SYMBOL_ARC_DEG) + 360 * k := by
  refine ⟨rfl, rfl, ?_, ?_, ?_⟩
  · norm_num [symbol_alignment_angle, TOP_CHEVRON_ANGLE_DEG, SYMBOL_ARC_DEG]
  · have h1 : started_state.ring_target_angle =
        0 + (fmod (symbol_alignment_angle 26 - 0) 360 + DIAL_MIN_TRAVEL_DEG) := rfl
    rw [h1]
    norm_num [symbol_alignment_angle, TOP_CHEVRON_ANGLE_DEG, SYMBOL_ARC_DEG,
      fmod, DIAL_MIN_TRAVEL_DEG]
  · rintro ⟨k, hk⟩
    rw [TOP_CHEVRON_ANGLE_DEG, SYMBOL_ARC_DEG] at hk
    have h3 : (3 : ℚ) * (k : ℚ) = 4 := by push_cast at hk; linarith
    have h4 : (3 : ℤ) * k = 4 := by exact_mod_cast h3
    omega

/-- C1 witness: the amended theorem applied at step 0 of the one-symbol
address `[0]`. -/
theorem step_angle_formula_check :
    even_step_state.dial_step_index < even_step_state.current_address.length ∧
      symbol_alignment_angle 0 =
        TOP_CHEVRON_ANGLE_DEG - ((0 : ℤ) : ℚ) * SYMBOL_ARC_DEG ∧
      ∃ k : ℤ, (begin_next_dial_step even_step_state).ring_target_angle =
        symbol_alignment_angle 0 + 360 * k :=
  ⟨by decide, (step_angle_formula even_step_state (by decide)).1,
    (step_angle_formula even_step_state (by decide)).2⟩

theorem mk_outer_start (r : ℤ) (i : ℕ) (hi : i < 27) :
    (mk_outer_sector r i).start_angle = (i : ℚ) * (360 / 27) := by
  show fmod ((i : ℚ) * (360 / 27)) 360 = _
  apply fmod_eq_self
  · positivity
  · have hc : (i : ℚ) ≤ 26 := by exact_mod_cast Nat.lt_succ_iff.mp hi
    have h2 : (i : ℚ) * (360 / 27) ≤ 26 * (360 / 27) :=
      mul_le_mul_of_nonneg_right hc (by norm_num)
    linarith [show (26 : ℚ) * (360 / 27) < 360 by norm_num]

theorem mk_outer_end (r : ℤ) (i : ℕ) (hi : i + 1 < 27) :
    (mk_outer_sector r i).end_angle = ((i : ℚ) + 1) * (360 / 27) := by
  show fmod ((mk_outer_sector r i).start_angle + 360 / 27) 360 = _
  rw [mk_outer_start r i (by omega)]
  have he : (i : ℚ) * (360 / 27) + 360 / 27 = ((i : ℚ) + 1) * (360 / 27) := by ring
  rw [he]
  apply fmod_eq_self
  · positivity
  · have hc : (i : ℚ) + 1 ≤ 26 := by
      have : (i : ℚ) ≤ 25 := by exact_mod_cast (by omega : i ≤ 25)
      linarith
    have h2 : ((i : ℚ) + 1) * (360 / 27) ≤ 26 * (360 / 27) :=
      mul_le_mul_of_nonneg_right hc (by norm_num)
    linarith [show (26 : ℚ) * (360 / 27) < 360 by norm_num]

theorem mk_outer_end_last (r : ℤ) : (mk_outer_sector r 26).end_angle = 0 := by
  show fmod ((mk_outer_sector r 26).start_angle + 360 / 27) 360 = 0
  rw [mk_outer_start r 26 (by norm_num)]
  have he : ((26 : ℕ) : ℚ) * (360 / 27) + 360 / 27 = 360 := by push_cast; norm_num
  rw [he, fmod_360]

theorem mk_inner_start (r : ℤ) (j : ℕ) (hj : j < 12) :
    (mk_inner_sector r j).start_angle = 15 + (j : ℚ) * 30 := by
  show fmod ((360 / 12 : ℚ) * 0.5 + (j : ℚ) * (360 / 12)) 360 = _
  have he : (360 / 12 : ℚ) * 0.5 + (j : ℚ) * (360 / 12) = 15 + (j : ℚ) * 30 := by
    norm_num
  rw [he]
  apply fmod_eq_self
  · positivity
  · have hc : (j : ℚ) ≤ 11 := by exact_mod_cast Nat.lt_succ_iff.mp hj
    nlinarith

theorem mk_inner_end (r : ℤ) (j : ℕ) (hj : j + 1 < 12) :
    (mk_inner_sector r j).end_angle = 45 + (j : ℚ) * 30 := by
  show fmod ((mk_inner_sector r j).start_angle + 360 / 12) 360 = _
  rw [mk_inner_start r j (by omega)]
  have he : 15 + (j : ℚ) * 30 + 360 / 12 = 45 + (j : ℚ) * 30 := by ring
  rw [he]
  apply fmod_eq_self
  · positivity
  · have hc : (j : ℚ) ≤ 10 := by exact_mod_cast (by omega : j ≤ 10)
    nlinarith

theorem mk_inner_end_last (r : ℤ) : (mk_inner_sector r 11).end_angle = 15 := by
  show fmod ((mk_inner_sector r 11).start_angle + 360 / 12) 360 = 15
  rw [mk_inner_start r 11 (by norm_num)]
  have he : 15 + ((11 : ℕ) : ℚ) * 30 + 360 / 12 = 375 := by push_cast; norm_num
  rw [he]
  norm_num [fmod]

theorem outer_span_iff (r : ℤ) (i : ℕ) (hi : i < 27) (angle : ℚ)
    (h0 : 0 ≤ angle) (h1 : angle < 360) :
    (angle_in_span angle (mk_outer_sector r i).start_angle
        (mk_outer_sector r i).end_angle = true) ↔
      ((i : ℚ) * (360 / 27) ≤ angle ∧ angle < ((i : ℚ) + 1) * (360 / 27)) := by
  rcases Nat.lt_or_ge (i + 1) 27 with hlt | hge
  · rw [mk_outer_start r i hi, mk_outer_end r i hlt]
    unfold angle_in_span
    rw [if_pos (by nlinarith : (i : ℚ) * (360 / 27) ≤ ((i : ℚ) + 1) * (360 / 27))]
    simp only [decide_eq_true_eq]
  · have hi26 : i = 26 := by omega
    subst hi26
    rw [mk_outer_start r 26 (by norm_num), mk_outer_end_last r]
    unfold angle_in_span
    rw [if_neg (by push_cast; norm_num : ¬ (((26 : ℕ) : ℚ) * (360 / 27) ≤ 0))]
    simp only [decide_eq_true_eq]
    have h360 : (((26 : ℕ) : ℚ) + 1) * (360 / 27) = 360 := by push_cast; norm_num
    constructor
    · rintro (hge2 | hlt2)
      · exact ⟨hge2, by rw [h360]; exact h1⟩
      · exact absurd hlt2 (not_lt.mpr h0)
    · rintro ⟨hge2, -⟩
      exact Or.inl hge2

theorem inner_span_iff (r : ℤ) (j : ℕ) (hj : j < 12) (angle : ℚ)
    (_h0 : 0 ≤ angle) (h1 : angle < 360) :
    (angle_in_span angle (mk_inner_sector r j).start_angle
        (mk_inner_sector r j).end_angle = true) ↔
      ((15 + (j : ℚ) * 30 ≤ angle ∧ angle < 45 + (j : ℚ) * 30) ∨
        (j = 11 ∧ angle < 15)) := by
  rcases Nat.lt_or_ge (j + 1) 12 with hlt | hge
  · rw [mk_inner_start r j hj, mk_inner_end r j hlt]
    unfold angle_in_span
    rw [if_pos (by nlinarith : (15 + (j : ℚ) * 30) ≤ 45 + (j : ℚ) * 30)]
    simp only [decide_eq_true_eq]
    constructor
    · exact fun hx => Or.inl hx
    · rintro (hx | ⟨hj11, -⟩)
      · exact hx
      · omega
  · have hj11 : j = 11 := by omega
    subst hj11
    rw [mk_inner_start r 11 (by norm_num), mk_inner_end_last r]
    unfold angle_in_span
    rw [if_neg (by push_cast; norm_num : ¬ ((15 + ((11 : ℕ) : ℚ) * 30) ≤ 15))]
    simp only [decide_eq_true_eq]
    have h345 : 15 + ((11 : ℕ) : ℚ) * 30 = 345 := by push_cast; norm_num
    rw [h345]
    constructor
    · rintro (hge2 | hlt2)
      · exact Or.inl ⟨hge2, by linarith⟩
      · exact Or.inr ⟨trivial, hlt2⟩
    · rintro (⟨hge2, -⟩ | ⟨-, hlt2⟩)
      · exact Or.inl hge2
      · exact Or.inr hlt2

theorem outer_match_iff (r : ℤ) (i : ℕ) (hi : i < 27) (angle dist : ℚ)
    (h0 : 0 ≤ angle) (h1 : angle < 360) :
    sector_matches (mk_outer_sector r i) angle dist = true ↔
      (((outer_ring_inner r : ℚ) ≤ dist ∧ dist ≤ (effective_outer_radius r : ℚ)) ∧
        ((i : ℚ) * (360 / 27) ≤ angle ∧ angle < ((i : ℚ) + 1) * (360 / 27))) := by
  unfold sector_matches
  rw [Bool.and_eq_true, decide_eq_true_eq, outer_span_iff r i hi angle h0 h1]
  exact Iff.rfl

theorem inner_match_iff (r : ℤ) (j : ℕ) (hj : j < 12) (angle dist : ℚ)
    (h0 : 0 ≤ angle) (h1 : angle < 360) :
    sector_matches (mk_inner_sector r j) angle dist = true ↔
      (((inner_ring_inner r : ℚ) ≤ dist ∧ dist ≤ (inner_ring_outer r : ℚ)) ∧
        ((15 + (j : ℚ) * 30 ≤ angle ∧ angle < 45 + (j : ℚ) * 30) ∨
          (j = 11 ∧ angle < 15))) := by
  unfold sector_matches
  rw [Bool.and_eq_true, decide_eq_true_eq, inner_span_iff r j hj angle h0 h1]
  exact Iff.rfl

theorem interval_index_unique (c : ℚ) (hc : 0 < c) (i j : ℕ) (x : ℚ)
    (hi : (i : ℚ) * c ≤ x ∧ x < ((i : ℚ) + 1) * c)
    (hj : (j : ℚ) * c ≤ x ∧ x < ((j : ℚ) + 1) * c) : i = j := by
  by_contra hne
  rcases Nat.lt_or_ge i j with hlt | hge
  · have hij : ((i : ℚ) + 1) ≤ (j : ℚ) := by exact_mod_cast hlt
    have hm := mul_le_mul_of_nonneg_right hij hc.le
    linarith [hi.2, hj.1]
  · have hlt2 : j < i := by omega
    have hij : ((j : ℚ) + 1) ≤ (i : ℚ) := by exact_mod_cast hlt2
    have hm := mul_le_mul_of_nonneg_right hij hc.le
    linarith [hj.2, hi.1]

theorem inner_outer_band (r : ℤ) : inner_ring_outer r ≤ outer_ring_inner r := by
  unfold inner_ring_outer outer_ring_inner
  apply Int.ediv_le_ediv (by norm_num)
  have h170 : (170 : ℤ) ≤ effective_outer_radius r := le_max_left 170 r
  linarith

/-- C9: for the sector set of any outer radius, and any `(angle, dist)`
pair with `angle` in `[0, 360)` (as produced by `_cw_angle_from_vector`),
`dist` strictly inside one ring's radius band and outside the center
zone, at most one sector matches, and `hit_test` returns exactly that
sector's symbol — so its result does not depend on the scan order. -/
theorem hit_test_disjoint (r : ℤ) (angle dist : ℚ)
    (h0 : 0 ≤ angle) (h1 : angle < 360)
    (hband : ((outer_ring_inner r : ℚ) < dist ∧
        dist < (effective_outer_radius r : ℚ)) ∨
      ((inner_ring_inner r : ℚ) < dist ∧ dist < (inner_ring_outer r : ℚ)))
    (hcenter : (center_button_radius r : ℚ) < dist) :
    (∀ s1 ∈ build_sectors r, ∀ s2 ∈ build_sectors r,
      sector_matches s1 angle dist = true → sector_matches s2 angle dist = true →
        s1 = s2) ∧
    (∀ s ∈ build_sectors r, sector_matches s angle dist = true →
      hit_test r angle dist = HitKind.symbol s.index) := by
  have hq : (inner_ring_outer r : ℚ) ≤ (outer_ring_inner r : ℚ) := by
    exact_mod_cast inner_outer_band r
  have hcross : ∀ i j : ℕ, i < 27 → j < 12 →
      sector_matches (mk_outer_sector r i) angle dist = true →
      sector_matches (mk_inner_sector r j) angle dist = true → False := by
    intro i j hi hj hmi hmj
    have hdo := ((outer_match_iff r i hi angle dist h0 h1).mp hmi).1
    have hdi := ((inner_match_iff r j hj angle dist h0 h1).mp hmj).1
    rcases hband with ⟨hb1, -⟩ | ⟨-, hb2⟩
    · linarith [hdi.2]
    · linarith [hdo.1]
  have hoo : ∀ i j : ℕ, i < 27 → j < 27 →
      sector_matches (mk_outer_sector r i) angle dist = true →
      sector_matches (mk_outer_sector r j) angle dist = true → i = j := by
    intro i j hi hj hmi hmj
    exact interval_index_unique (360 / 27) (by norm_num) i j angle
      ((outer_match_iff r i hi angle dist h0 h1).mp hmi).2
      ((outer_match_iff r j hj angle dist h0 h1).mp hmj).2
  have hii : ∀ i j : ℕ, i < 12 → j < 12 →
      sector_matches (mk_inner_sector r i) angle dist = true →
      sector_matches (mk_inner_sector r j) angle dist = true → i = j := by
    intro i j hi hj hmi hmj
    have ha := ((inner_match_iff r i hi angle dist h0 h1).mp hmi).2
    have hb := ((inner_match_iff r j hj angle dist h0 h1).mp hmj).2
    have hnn : (0 : ℚ) ≤ (i : ℚ) * 30 := by positivity
    have hnn2 : (0 : ℚ) ≤ (j : ℚ) * 30 := by positivity
    rcases ha with ⟨ha1, ha2⟩ | ⟨hi11, ha2⟩
    · rcases hb with ⟨hb1, hb2⟩ | ⟨hj11, hb2⟩
      · refine interval_index_unique 30 (by norm_num) i j (angle - 15)
          ⟨by linarith, by nlinarith⟩ ⟨by linarith, by nlinarith⟩
      · linarith
    · rcases hb with ⟨hb1, hb2⟩ | ⟨hj11, hb2⟩
      · linarith
      · omega
  have uniq : ∀ s1 ∈ build_sectors r, ∀ s2 ∈ build_sectors r,
      sector_matches s1 angle dist = true → sector_matches s2 angle dist = true →
        s1 = s2 := by
    intro s1 hs1 s2 hs2 hm1 hm2
    simp only [build_sectors, List.mem_append, List.mem_map, List.mem_range] at hs1 hs2
    rcases hs1 with ⟨i, hi, rfl⟩ | ⟨i, hi, rfl⟩ <;>
      rcases hs2 with ⟨j, hj, rfl⟩ | ⟨j, hj, rfl⟩
    · rw [hoo i j hi hj hm1 hm2]
    · exact absurd (hcross i j hi hj hm1 hm2) (fun h => h)
    · exact absurd (hcross j i hj hi hm2 hm1) (fun h => h)
    · rw [hii i j hi hj hm1 hm2]
  refine ⟨uniq, ?_⟩
  intro s hs hm
  unfold hit_test
  rw [if_neg (not_le.mpr hcenter)]
  cases hfind : (build_sectors r).find? (fun sec => sector_matches sec angle dist) with
  | none =>
      exact absurd hm (by simpa using List.find?_eq_none.mp hfind s hs)
  | some s2 =>
      have hmem := List.mem_of_find?_eq_some hfind
      have hp0 := List.find?_some hfind
      have hp : sector_matches s2 angle dist = true := hp0
      rw [uniq s2 hmem s hs hp hm]

/-- C9 witness: on the default wheel (outer radius 280, so the outer ring
band is `[193, 280]` and the center zone ends at 84), the point at angle
100 and distance 200 lies strictly inside the outer band and `hit_test`
uniquely selects outer sector 7. -/
theorem hit_test_disjoint_check :
    ((0 : ℚ) ≤ 100 ∧ (100 : ℚ) < 360 ∧
        (outer_ring_inner 280 : ℚ) < 200 ∧
        (200 : ℚ) < (effective_outer_radius 280 : ℚ) ∧
        (center_button_radius 280 : ℚ) < 200) ∧
      hit_test 280 100 200 = HitKind.symbol 7 := by
  have e1 : outer_ring_inner 280 = 193 := by decide
  have e2 : effective_outer_radius 280 = 280 := by decide
  have e3 : center_button_radius 280 = 84 := by decide
  have hyp1 : (outer_ring_inner 280 : ℚ) < 200 := by rw [e1]; norm_num
  have hyp2 : (200 : ℚ) < (effective_outer_radius 280 : ℚ) := by rw [e2]; norm_num
  have hyp3 : (center_button_radius 280 : ℚ) < 200 := by rw [e3]; norm_num
  have h := hit_test_disjoint 280 100 200 (by norm_num) (by norm_num)
    (Or.inl ⟨hyp1, hyp2⟩) hyp3
  have hmem : mk_outer_sector 280 7 ∈ build_sectors 280 := by
    unfold build_sectors
    exact List.mem_append_left _
      (List.mem_map_of_mem _ (List.mem_range.mpr (by norm_num)))
  have hmatch : sector_matches (mk_outer_sector 280 7) 100 200 = true := by
    rw [outer_match_iff 280 7 (by norm_num) 100 200 (by norm_num) (by norm_num)]
    refine ⟨⟨by rw [e1]; norm_num, by rw [e2]; norm_num⟩, ?_, ?_⟩
    · push_cast
      norm_num
    · push_cast
      norm_num
  exact ⟨⟨by norm_num, by norm_num, hyp1, hyp2, hyp3⟩,
    h.2 (mk_outer_sector 280 7) hmem hmatch⟩
